import Mathlib

/-!
Verification of the repository-suggestion engine of the `github-repo-search`
browser extension (`src/extension/src/background/background.js`).

JS strings are modelled as `List Char` (`Str`); JS arrays as `List`; the
opaque compiled `RegExp` value produced by `new RegExp(text, 'i')` as a
structure bundling its `test` method and its first-match `replace` with the
`<match>$&</match>` replacement string; the ambient regex engine as a
parameter `compile : Str → Option CompiledRegex` (`none` models the
`SyntaxError` thrown on a malformed pattern, caught by the code's
`try`/`catch`).  `litCompile` instantiates the engine on the fragment the
concrete test inputs use: a pattern free of regex metacharacters denotes
case-insensitive substring search (exactly what `/pat/i` does for literal
patterns); every other pattern is outside the model and mapped to `none`,
in particular `"("`, which the real engine also rejects.
-/

namespace GithubRepoSearch

/-- JS strings, modelled as lists of characters. -/
abbrev Str := List Char

/-- Coercion from Lean string literals into the model. -/
def lit (s : String) : Str := s.data

/-- A browser omnibox suggestion: `{ content: URL, description: text }`. -/
structure Suggestion where
  content : Str
  description : Str
deriving DecidableEq, Repr

/-- A repository record as returned by the GitHub API
(fields `full_name`, `html_url`, `archived`). -/
structure RepoRecord where
  full_name : Str
  html_url : Str
  archived : Bool
deriving DecidableEq, Repr

/-- Source constant `MAX_SUGGESTIONS = 10`. -/
def MAX_SUGGESTIONS : Nat := 10

/-- Source constant `RESULTS_PER_PAGE = '100'`: the source holds the string `'100'`,
which every comparison (`totalResults < RESULTS_PER_PAGE`) coerces to the
number 100, so it is modelled as the number directly. -/
def RESULTS_PER_PAGE : Nat := 100

/-- Source function `formatAsSuggestion(data)`: maps an API record to a suggestion with the
plain `` `${data.full_name} -` `` description. -/
def formatAsSuggestion (data : RepoRecord) : Suggestion :=
  { content := data.html_url
    description := data.full_name ++ lit " -" }

/-- An opaque compiled case-insensitive JS regex (`new RegExp(text, 'i')`):
`test` is `re.test(s)`, `replaceFirst` is
`s.replace(re, '<match>$&</match>')` (no `g` flag, so only the first
match is replaced). -/
structure CompiledRegex where
  test : Str → Bool
  replaceFirst : Str → Str

/-- The value of `description.split('/').pop()`: the text after the final `'/'`
(the whole string when no `'/'` occurs). -/
def lastSegment : Str → Str
  | [] => []
  | c :: t => if c = '/' ∨ '/' ∈ t then lastSegment t else c :: t

/-- Source function `isMatch(description, text, onlyRepo)`: test the regex
against the repo-name segment only, or against the full description. -/
def isMatch (description : Str) (text : CompiledRegex) (onlyRepo : Bool) : Bool :=
  let matchText := if onlyRepo then lastSegment description else description
  text.test matchText

/-- Case-insensitive character comparison used by the `'i'` flag. -/
def lowerEq (a b : Char) : Bool := a.toLower == b.toLower

/-- Case-insensitive "needle is a prefix of hay". -/
def isPrefixOfCI : Str → Str → Bool
  | [], _ => true
  | _ :: _, [] => false
  | a :: as, b :: bs => lowerEq a b && isPrefixOfCI as bs

/-- Case-insensitive substring test: what `/needle/i.test(hay)` computes
for a metacharacter-free needle. -/
def containsCI (needle : Str) : Str → Bool
  | [] => needle.isEmpty
  | c :: t => isPrefixOfCI needle (c :: t) || containsCI needle t

/-- The wrapper `'<match>' + m + '</match>'`: the `$&` replacement wrapper. -/
def wrapMatch (m : Str) : Str := lit "<match>" ++ m ++ lit "</match>"

/-- The value of `s.replace(/needle/i, '<match>$&</match>')` for a literal needle:
wrap the first (case-insensitive) occurrence only, keep the rest. -/
def replaceFirstLit (needle : Str) : Str → Str
  | [] => if needle.isEmpty then wrapMatch [] else []
  | c :: t =>
    if isPrefixOfCI needle (c :: t) then
      wrapMatch ((c :: t).take needle.length) ++ (c :: t).drop needle.length
    else c :: replaceFirstLit needle t

/-- The JS regex metacharacters; a pattern containing any of these is
outside the literal fragment modelled by `litCompile`. -/
def regexMetaChars : Str := lit "\\^$.|?*+()[]\x7b\x7d"

/-- The regex engine on the literal fragment: a metacharacter-free pattern
with flag `'i'` denotes case-insensitive substring search; all other
patterns are unmodelled (`none` — in particular `"("`, which
`new RegExp` rejects with a `SyntaxError`). -/
def litCompile (pattern : Str) : Option CompiledRegex :=
  if pattern.any (fun c => regexMetaChars.contains c) then none
  else some { test := containsCI pattern, replaceFirst := replaceFirstLit pattern }

/-- Phase-1 loop of `highlightResults`: push every repo-name match, break
as soon as `highlights.length === MAX_SUGGESTIONS` after a push. -/
def phase1 (re : CompiledRegex) : List Suggestion → List Suggestion → List Suggestion
  | [], highlights => highlights
  | repo :: rest, highlights =>
    if isMatch repo.description re true then
      if (highlights ++ [repo]).length = MAX_SUGGESTIONS then highlights ++ [repo]
      else phase1 re rest (highlights ++ [repo])
    else phase1 re rest highlights

/-- Phase-2 loop of `highlightResults`: push every full-description match
whose description is not in `added`, break only when the length equals
`MAX_SUGGESTIONS` exactly after a push. -/
def phase2 (re : CompiledRegex) (added : List Str) :
    List Suggestion → List Suggestion → List Suggestion
  | [], highlights => highlights
  | repo :: rest, highlights =>
    if !added.contains repo.description && isMatch repo.description re false then
      if (highlights ++ [repo]).length = MAX_SUGGESTIONS then highlights ++ [repo]
      else phase2 re added rest (highlights ++ [repo])
    else phase2 re added rest highlights

/-- The two loops of `highlightResults` composed: phase 1 from the empty
accumulator, then phase 2 with `added` holding the descriptions pushed in
phase 1. -/
def selectHighlights (re : CompiledRegex) (results : List Suggestion) : List Suggestion :=
  let p1 := phase1 re results []
  phase2 re (p1.map (fun s => s.description)) results p1

/-- The final `.map` of `highlightResults`: on Chrome wrap the first match
and build the `<dim>…</dim> <url>…</url>` display text; on Firefox keep
the plain description.  `content` is passed through unchanged. -/
def displaySuggestion (isChrome : Bool) (re : CompiledRegex) (res : Suggestion) : Suggestion :=
  if isChrome then
    { content := res.content
      description := lit "<dim>" ++ re.replaceFirst res.description ++ lit "</dim> <url>"
        ++ res.content ++ lit "</url>" }
  else
    { content := res.content, description := res.description }

/-- Source function `highlightResults(text, results)`: compile the query (a compile failure
is caught and yields `[]`), run the two phases, map to display form. -/
def highlightResults (isChrome : Bool) (compile : Str → Option CompiledRegex)
    (text : Str) (results : List Suggestion) : List Suggestion :=
  match compile text with
  | none => []
  | some searchTextRegExp =>
    (selectHighlights searchTextRegExp results).map (displaySuggestion isChrome searchTextRegExp)

/-- A fetch response: `response.ok`, `response.status`, and the parsed JSON
array of repository records. -/
structure Response where
  ok : Bool
  status : Nat
  data : List RepoRecord

/-- The typed failure surfaced by `getRepos`: status 401 raises the
`tokenError` notification, every other non-success status the `syncError`
notification, and in both cases the promise rejects. -/
inductive SyncError where
  | auth
  | generic
deriving DecidableEq, Repr

/-- One page of `getRepos` after the archived filter and
`formatAsSuggestion` mapping:
`data.filter(repo => !repo.archived)` (only when `!showArchivedRepos`)
then `data.map(formatAsSuggestion)`. -/
def pageSuggestions (showArchivedRepos : Bool) (data : List RepoRecord) : List Suggestion :=
  (if !showArchivedRepos then data.filter (fun repo => !repo.archived) else data).map
    formatAsSuggestion

/-- The recursive `getRepos(page, items)` inside `search()`, with the remote
API as a function from page number to response and explicit fuel (the JS
recursion is unbounded; `none` marks fuel exhaustion, never a source
outcome).  Returns the result together with the number of page requests
performed.  `totalResults` is the raw page length, read before the archived
filter. -/
def getRepos (showArchivedRepos : Bool) (api : Nat → Response) :
    Nat → Nat → List Suggestion → Option (Except SyncError (List Suggestion) × Nat)
  | 0, _, _ => none
  | fuel + 1, page, items =>
    let response := api page
    if !response.ok then
      if response.status = 401 then some (Except.error SyncError.auth, 1)
      else some (Except.error SyncError.generic, 1)
    else
      let data := response.data
      let totalResults := data.length
      let items := items ++ pageSuggestions showArchivedRepos data
      if totalResults = 0 ∨ totalResults < RESULTS_PER_PAGE then
        some (Except.ok items, 1)
      else
        match getRepos showArchivedRepos api fuel (page + 1) items with
        | none => none
        | some (r, n) => some (r, n + 1)

/-- The observable state of the sync orchestrator: the `isFetching` flag,
the `repos` slot of `browser.storage.local`, the chronological log of
`storage.local.set({repos})` writes, and the number of network requests
issued. -/
structure World where
  isFetching : Bool
  storedRepos : List Suggestion
  writeLog : List (List Suggestion)
  fetchCount : Nat
deriving DecidableEq, Repr

/-- Source function `search()` run to completion with no interleaving: the single-flight
gate resolves `[]` immediately (no fetch) when `isFetching` is set;
otherwise the flag is raised and `getRepos` runs (which clears the flag on
both its return and its catch path before the promise settles). -/
def searchModel (w : World) (showArchivedRepos : Bool) (api : Nat → Response) (fuel : Nat) :
    World × Option (Except SyncError (List Suggestion)) :=
  if w.isFetching then
    (w, some (Except.ok []))
  else
    let w1 : World := { w with isFetching := true }
    match getRepos showArchivedRepos api fuel 1 [] with
    | none => (w1, none)
    | some (r, n) =>
      ({ w1 with isFetching := false, fetchCount := w1.fetchCount + n }, some r)

/-- Source function `syncRepos(notify, callback)` run to completion with no interleaving:
`search().then(repos => storage.local.set({repos}, …)).catch(() => {})` —
a resolved promise's value is written to the cache (full replace), a
rejected one is swallowed with no write. -/
def syncReposModel (w : World) (showArchivedRepos : Bool) (api : Nat → Response) (fuel : Nat) :
    World :=
  match searchModel w showArchivedRepos api fuel with
  | (w2, some (Except.ok repos)) =>
    { w2 with storedRepos := repos, writeLog := w2.writeLog ++ [repos] }
  | (w2, some (Except.error _)) => w2
  | (w2, none) => w2

/-- Two `syncRepos()` calls with the second arriving while the first's
fetch is in flight, in host event-loop order:
(1) call 1 enters `search()`, passes the gate and sets `isFetching`; its
`fetch` suspends;
(2) call 2 enters `search()`, observes `isFetching` and resolves `[]`
with no network request;
(3) call 2's `.then` microtask runs `storage.local.set({repos: []})`
while the first fetch is still pending;
(4) call 1's `getRepos` chain completes, clears `isFetching`, and its
`.then` writes the fetched suggestions (or its `.catch` swallows the
error with no write).
Returns the final world together with the value call 2 resolved. -/
def twoSyncScenario (w : World) (showArchivedRepos : Bool) (api : Nat → Response)
    (fuel : Nat) : World × List Suggestion :=
  let w1 : World := { w with isFetching := true }
  let call2 := searchModel w1 showArchivedRepos api fuel
  let call2Value := match call2.2 with
    | some (Except.ok v) => v
    | _ => []
  let w2 : World := { call2.1 with storedRepos := [], writeLog := call2.1.writeLog ++ [[]] }
  match getRepos showArchivedRepos api fuel 1 [] with
  | none => (w2, call2Value)
  | some (Except.ok repos, n) =>
    let w3 : World :=
      { isFetching := false, fetchCount := w2.fetchCount + n,
        storedRepos := repos, writeLog := w2.writeLog ++ [repos] }
    (w3, call2Value)
  | some (Except.error _, n) =>
    ({ w2 with isFetching := false, fetchCount := w2.fetchCount + n }, call2Value)

/-- Source function `getSuggestionsCache(callback)` as a value: the in-memory cache when it
is non-empty, otherwise the `repos` slot read from local storage (which
`syncLocalRepos` also copies into the in-memory cache). -/
def getSuggestionsCache (suggestionsCache storedRepos : List Suggestion) : List Suggestion :=
  if suggestionsCache.length ≠ 0 then suggestionsCache else storedRepos

/-- Source function `onInputEnteredHandler(userInput, disposition)` reduced to the URL it
navigates to (`none` = no navigation).  `parseURL` models
`new URL(userInput).href` (`none` = the constructor throws).  In the catch
branch the code calls `getSuggestionsCache` and tests `url` immediately
after: when the in-memory cache is non-empty the callback runs
synchronously and `url` is set in time; when it is empty the callback is
deferred behind the asynchronous `browser.storage.local.get`, so the
`if (url)` check runs first with `url` still undefined and nothing
happens. -/
def onInputEnteredHandler (parseURL : Str → Option Str) (isChrome : Bool)
    (compile : Str → Option CompiledRegex) (userInput : Str)
    (suggestionsCache storedRepos : List Suggestion) : Option Str :=
  match parseURL userInput with
  | some href => some href
  | none =>
    if suggestionsCache.length ≠ 0 then
      match highlightResults isChrome compile userInput suggestionsCache with
      | [] => none
      | s :: _ => some s.content
    else
      none

/-- Modelled from the spec: the absolute-URL check done by the host's
`new URL(...)` constructor (the constructor itself is host code, not in
this repository), restricted to `http(s)://` inputs and with `href`
normalisation left as the identity. -/
def litParseURL (s : Str) : Option Str :=
  if (lit "http://").isPrefixOf s ∨ (lit "https://").isPrefixOf s then some s else none

/-- Follows claim C1's wording, phase 1: "collects, in original candidate
order, every candidate whose repository-name segment (the text after the
final '/' of the description) matches the query, up to the limit". -/
def specPhase1 (re : CompiledRegex) (candidates : List Suggestion) : List Suggestion :=
  (candidates.filter (fun s => re.test (lastSegment s.description))).take MAX_SUGGESTIONS

/-- The phase-2 filter shared by the claim readings: full-description
matches whose description was not collected in phase 1. -/
def specPhase2Pool (re : CompiledRegex) (p1 : List Suggestion)
    (candidates : List Suggestion) : List Suggestion :=
  candidates.filter (fun s =>
    !(p1.map (fun x => x.description)).contains s.description && re.test s.description)

/-- Follows claim C1 as stated: "if fewer than the limit were collected,
Phase 2 scans again in original order and appends every candidate whose
full description matches, skipping candidates already added in Phase 1,
until the limit is reached" — so when phase 1 already collected the limit,
the result is the phase-1 list alone. -/
def specSelect (re : CompiledRegex) (candidates : List Suggestion) : List Suggestion :=
  let p1 := specPhase1 re candidates
  if p1.length < MAX_SUGGESTIONS then
    p1 ++ (specPhase2Pool re p1 candidates).take (MAX_SUGGESTIONS - p1.length)
  else p1

/-- Claim C1 as stated, lifted to the full matcher (compile, select,
display), for comparison against `highlightResults`. -/
def specMatchC1 (isChrome : Bool) (compile : Str → Option CompiledRegex)
    (text : Str) (results : List Suggestion) : List Suggestion :=
  match compile text with
  | none => []
  | some re => (specSelect re results).map (displaySuggestion isChrome re)

/-- Claim C1 as amended: identical to `specSelect` when phase 1 collects
fewer than the limit, but when phase 1 fills the limit exactly, phase 2
still scans and appends every remaining full-description match with no
limit. -/
def specSelectAmended (re : CompiledRegex) (candidates : List Suggestion) : List Suggestion :=
  let p1 := specPhase1 re candidates
  if p1.length < MAX_SUGGESTIONS then
    p1 ++ (specPhase2Pool re p1 candidates).take (MAX_SUGGESTIONS - p1.length)
  else p1 ++ specPhase2Pool re p1 candidates

/-- Helper `replaceAllLitAux`: fuel-indexed global wrap of every case-insensitive
occurrence of a literal needle (each step consumes at least one
character, so fuel = length of the string suffices). -/
def replaceAllLitAux (needle : Str) : Nat → Str → Str
  | 0, s => s
  | _ + 1, [] => []
  | fuel + 1, c :: t =>
    if needle ≠ [] ∧ isPrefixOfCI needle (c :: t) = true then
      wrapMatch ((c :: t).take needle.length) ++
        replaceAllLitAux needle fuel ((c :: t).drop needle.length)
    else c :: replaceAllLitAux needle fuel t

/-- Follows claim C9's wording: "every matched substring of its description
is wrapped in a markup marker" — a global (every-occurrence) wrap, unlike
the code's first-occurrence-only `replace` on a regex without the `g`
flag. -/
def replaceAllLit (needle : Str) (s : Str) : Str :=
  replaceAllLitAux needle s.length s

/-- Follows claim C8's wording: "if the text parses as an absolute URL the
session navigates directly to it; otherwise the match is re-run against
the cache and the session navigates to the top result's URL if at least
one result exists; otherwise it does nothing" — the cache being the
read-through `getSuggestionsCache` value. -/
def onInputEnteredSpec (parseURL : Str → Option Str) (isChrome : Bool)
    (compile : Str → Option CompiledRegex) (userInput : Str)
    (suggestionsCache storedRepos : List Suggestion) : Option Str :=
  match parseURL userInput with
  | some href => some href
  | none =>
    match highlightResults isChrome compile userInput
        (getSuggestionsCache suggestionsCache storedRepos) with
    | [] => none
    | s :: _ => some s.content

/-! ### Concrete fixtures used by witnesses, counterexamples and evaluations -/

/-- A non-archived record; pages made of copies of it survive the archived
filter untouched. -/
def rec0 : RepoRecord :=
  { full_name := lit "o/r", html_url := lit "https://github.com/o/r", archived := false }

/-- The suggestion `rec0` maps to. -/
def sug0 : Suggestion := formatAsSuggestion rec0

/-- A mocked API returning successful pages of raw sizes 100, 100, 37 and
(never requested) full pages beyond. -/
def api3 : Nat → Response := fun page =>
  if page ≤ 2 then { ok := true, status := 200, data := List.replicate 100 rec0 }
  else if page = 3 then { ok := true, status := 200, data := List.replicate 37 rec0 }
  else { ok := true, status := 200, data := List.replicate 100 rec0 }

/-- A mocked API whose first page is successful and empty. -/
def api0 : Nat → Response := fun _ => { ok := true, status := 200, data := [] }

/-- A mocked API answering 401 at once. -/
def api401 : Nat → Response := fun _ => { ok := false, status := 401, data := [] }

/-- A mocked API answering 500 after one full page: page 1 is full and ok,
page 2 fails. -/
def api500 : Nat → Response := fun page =>
  if page = 1 then { ok := true, status := 200, data := List.replicate 100 rec0 }
  else { ok := false, status := 500, data := [] }

/-- The two records of claim C5: `a` kept, `b` archived. -/
def recA : RepoRecord := { full_name := lit "a", html_url := lit "ua", archived := false }

/-- The archived record of claim C5. -/
def recB : RepoRecord := { full_name := lit "b", html_url := lit "ub", archived := true }

/-- A mocked API returning the single page `[recA, recB]`. -/
def apiAB : Nat → Response := fun _ => { ok := true, status := 200, data := [recA, recB] }

/-- A pre-populated suggestion standing for the previously synced cache. -/
def oldSug : Suggestion := { content := lit "uo", description := lit "old/repo -" }

/-- An idle world with a previously persisted cache. -/
def w0 : World := { isFetching := false, storedRepos := [oldSug], writeLog := [], fetchCount := 0 }

/-- Claim C1's example candidates: `acme/api-server -` then `api/widgets -`. -/
def sugApiServer : Suggestion := { content := lit "u1", description := lit "acme/api-server -" }

/-- Claim C1's second example candidate. -/
def sugWidgets : Suggestion := { content := lit "u2", description := lit "api/widgets -" }

/-- The compiled regex `litCompile` produces for the query `"api"`. -/
def reApi : CompiledRegex :=
  { test := containsCI (lit "api"), replaceFirst := replaceFirstLit (lit "api") }

/-- The compiled regex `litCompile` produces for the query `"a"`. -/
def reA : CompiledRegex :=
  { test := containsCI (lit "a"), replaceFirst := replaceFirstLit (lit "a") }

/-- The compiled regex `litCompile` produces for the query `"a/b"`. -/
def reSlash : CompiledRegex :=
  { test := containsCI (lit "a/b"), replaceFirst := replaceFirstLit (lit "a/b") }

/-- The compiled regex `litCompile` produces for the query `" -"`. -/
def reDash : CompiledRegex :=
  { test := containsCI (lit " -"), replaceFirst := replaceFirstLit (lit " -") }

/-- Eleven candidates for the limit-overshoot input: ten whose repo-name
segment matches `"a"` (filling phase 1 to the limit exactly) followed by
one matched only through its owner part. -/
def cands11 : List Suggestion :=
  (List.range 10).map (fun i =>
    { content := lit "u", description := lit "x/a" ++ lit (toString i) ++ lit " -" })
  ++ [{ content := lit "w", description := lit "aa/z -" }]

/-- A stored suggestion matching the query `"a"`, used for the
enter-key counterexample. -/
def sugXA : Suggestion := { content := lit "u", description := lit "x/a -" }

/-! ### Helper lemmas -/

/-- The phase-1 loop collects, in order, the repo-name matches, cut off at
`MAX_SUGGESTIONS`, as long as the accumulator is below the limit. -/
theorem phase1_spec (re : CompiledRegex) (results : List Suggestion) :
    ∀ acc : List Suggestion, acc.length < MAX_SUGGESTIONS →
      phase1 re results acc =
        acc ++ (results.filter (fun s => isMatch s.description re true)).take
          (MAX_SUGGESTIONS - acc.length) := by
  induction results with
  | nil => intro acc _; simp [phase1]
  | cons repo rest ih =>
    intro acc h
    by_cases hm : isMatch repo.description re true
    · rw [phase1, if_pos hm]
      have hfc : (repo :: rest).filter (fun s => isMatch s.description re true) =
          repo :: rest.filter (fun s => isMatch s.description re true) := by
        simp [List.filter_cons, hm]
      rw [hfc]
      have ht : MAX_SUGGESTIONS - acc.length = (MAX_SUGGESTIONS - (acc.length + 1)) + 1 := by
        omega
      rw [ht, List.take_succ_cons]
      by_cases hfull : (acc ++ [repo]).length = MAX_SUGGESTIONS
      · rw [if_pos hfull]
        have h0 : MAX_SUGGESTIONS - (acc.length + 1) = 0 := by
          simp only [List.length_append, List.length_cons, List.length_nil] at hfull
          omega
        simp [h0]
      · rw [if_neg hfull]
        have hlt : (acc ++ [repo]).length < MAX_SUGGESTIONS := by
          simp only [List.length_append, List.length_cons, List.length_nil] at hfull ⊢
          omega
        rw [ih (acc ++ [repo]) hlt]
        simp [List.length_append]
    · rw [phase1, if_neg hm, ih acc h]
      have hfc : (repo :: rest).filter (fun s => isMatch s.description re true) =
          rest.filter (fun s => isMatch s.description re true) := by
        simp [List.filter_cons, hm]
      rw [hfc]

/-- The phase-2 loop, started below the limit, appends the not-yet-added
full matches until the limit is reached. -/
theorem phase2_lt (re : CompiledRegex) (added : List Str) (results : List Suggestion) :
    ∀ acc : List Suggestion, acc.length < MAX_SUGGESTIONS →
      phase2 re added results acc =
        acc ++ (results.filter (fun s =>
          !added.contains s.description && isMatch s.description re false)).take
          (MAX_SUGGESTIONS - acc.length) := by
  induction results with
  | nil => intro acc _; simp [phase2]
  | cons repo rest ih =>
    intro acc h
    by_cases hm : (!added.contains repo.description && isMatch repo.description re false) = true
    · rw [phase2, if_pos hm]
      have hfc : (repo :: rest).filter (fun s =>
          !added.contains s.description && isMatch s.description re false) =
          repo :: rest.filter (fun s =>
            !added.contains s.description && isMatch s.description re false) := by
        simp only [List.filter_cons, hm, if_pos]
      rw [hfc]
      have ht : MAX_SUGGESTIONS - acc.length = (MAX_SUGGESTIONS - (acc.length + 1)) + 1 := by
        omega
      rw [ht, List.take_succ_cons]
      by_cases hfull : (acc ++ [repo]).length = MAX_SUGGESTIONS
      · rw [if_pos hfull]
        have h0 : MAX_SUGGESTIONS - (acc.length + 1) = 0 := by
          simp only [List.length_append, List.length_cons, List.length_nil] at hfull
          omega
        simp [h0]
      · rw [if_neg hfull]
        have hlt : (acc ++ [repo]).length < MAX_SUGGESTIONS := by
          simp only [List.length_append, List.length_cons, List.length_nil] at hfull ⊢
          omega
        rw [ih (acc ++ [repo]) hlt]
        simp [List.length_append]
    · rw [phase2, if_neg hm, ih acc h]
      have hfc : (repo :: rest).filter (fun s =>
          !added.contains s.description && isMatch s.description re false) =
          rest.filter (fun s =>
            !added.contains s.description && isMatch s.description re false) := by
        simp only [List.filter_cons, if_neg hm]
      rw [hfc]

/-- The phase-2 loop, started at or above the limit, appends every
not-yet-added full match: the `=== MAX_SUGGESTIONS` break never fires
again. -/
theorem phase2_ge (re : CompiledRegex) (added : List Str) (results : List Suggestion) :
    ∀ acc : List Suggestion, MAX_SUGGESTIONS ≤ acc.length →
      phase2 re added results acc =
        acc ++ results.filter (fun s =>
          !added.contains s.description && isMatch s.description re false) := by
  induction results with
  | nil => intro acc _; simp [phase2]
  | cons repo rest ih =>
    intro acc h
    by_cases hm : (!added.contains repo.description && isMatch repo.description re false) = true
    · rw [phase2, if_pos hm]
      have hfc : (repo :: rest).filter (fun s =>
          !added.contains s.description && isMatch s.description re false) =
          repo :: rest.filter (fun s =>
            !added.contains s.description && isMatch s.description re false) := by
        simp only [List.filter_cons, hm, if_pos]
      rw [hfc]
      have hfull : ¬((acc ++ [repo]).length = MAX_SUGGESTIONS) := by
        simp only [List.length_append, List.length_cons, List.length_nil]
        omega
      rw [if_neg hfull]
      have hge : MAX_SUGGESTIONS ≤ (acc ++ [repo]).length := by
        simp only [List.length_append, List.length_cons, List.length_nil]
        omega
      rw [ih (acc ++ [repo]) hge]
      simp [List.length_append]
    · rw [phase2, if_neg hm, ih acc h]
      have hfc : (repo :: rest).filter (fun s =>
          !added.contains s.description && isMatch s.description re false) =
          rest.filter (fun s =>
            !added.contains s.description && isMatch s.description re false) := by
        simp only [List.filter_cons, if_neg hm]
      rw [hfc]

/-- The selection made by the source's two loops equals the amended two-phase
description. -/
theorem selectHighlights_spec (re : CompiledRegex) (results : List Suggestion) :
    selectHighlights re results = specSelectAmended re results := by
  have hp1 : phase1 re results [] = specPhase1 re results := by
    rw [phase1_spec re results [] (by norm_num [MAX_SUGGESTIONS])]
    simp [specPhase1, isMatch]
  show phase2 re ((phase1 re results []).map (fun s => s.description)) results
      (phase1 re results []) = specSelectAmended re results
  rw [hp1]
  unfold specSelectAmended specPhase2Pool
  by_cases h : (specPhase1 re results).length < MAX_SUGGESTIONS
  · rw [if_pos h, phase2_lt _ _ _ _ h]
    simp [isMatch]
  · rw [if_neg h, phase2_ge _ _ _ _ (by omega)]
    simp [isMatch]

/-- Flattening over `range (k + 1)` peels off the first page. -/
theorem range_succ_shift (f : Nat → List Suggestion) (k : Nat) :
    ((List.range (k + 1)).map f).flatten =
      f 0 ++ ((List.range k).map (fun i => f (i + 1))).flatten := by
  rw [List.range_succ_eq_map]
  simp only [List.map_cons, List.flatten_cons, List.map_map]
  rfl

/-- Pagination, success path: if the first `k` pages are full and ok and
page `k + 1` is ok and short, `getRepos` terminates after exactly `k + 1`
requests with the filtered, mapped pages concatenated in order. -/
theorem getRepos_ok (sa : Bool) (api : Nat → Response) :
    ∀ (k page : Nat) (items : List Suggestion) (fuel : Nat),
      (∀ i, i < k → (api (page + i)).ok = true ∧ (api (page + i)).data.length = RESULTS_PER_PAGE) →
      (api (page + k)).ok = true →
      (api (page + k)).data.length < RESULTS_PER_PAGE →
      k + 1 ≤ fuel →
      getRepos sa api fuel page items =
        some (Except.ok (items ++ ((List.range (k + 1)).map
          (fun i => pageSuggestions sa (api (page + i)).data)).flatten), k + 1) := by
  intro k
  induction k with
  | zero =>
    intro page items fuel hfull hok hshort hfuel
    match fuel, hfuel with
    | f + 1, _ =>
      simp only [Nat.add_zero] at hok hshort
      simp only [getRepos, hok, Bool.not_true, Bool.false_eq_true, if_false]
      rw [if_pos (Or.inr hshort)]
      simp [List.range_succ]
  | succ k ih =>
    intro page items fuel hfull hok hshort hfuel
    match fuel, hfuel with
    | f + 1, hfuel =>
      have h0 := hfull 0 (Nat.succ_pos k)
      simp only [Nat.add_zero] at h0
      simp only [getRepos, h0.1, Bool.not_true, Bool.false_eq_true, if_false]
      have hcond : ¬((api page).data.length = 0 ∨ (api page).data.length < RESULTS_PER_PAGE) := by
        rw [h0.2]
        simp [RESULTS_PER_PAGE]
      rw [if_neg hcond]
      have hrec := ih (page + 1) (items ++ pageSuggestions sa (api page).data) f
        (fun i hi => by
          have hx := hfull (i + 1) (by omega)
          have harg : page + (i + 1) = page + 1 + i := by omega
          rw [harg] at hx
          exact hx)
        (by
          have harg : page + 1 + k = page + (k + 1) := by omega
          rw [harg]
          exact hok)
        (by
          have harg : page + 1 + k = page + (k + 1) := by omega
          rw [harg]
          exact hshort)
        (by omega)
      rw [hrec]
      have hflat : (items ++ pageSuggestions sa (api page).data) ++
          ((List.range (k + 1)).map (fun i => pageSuggestions sa (api (page + 1 + i)).data)).flatten =
          items ++ ((List.range (k + 1 + 1)).map
            (fun i => pageSuggestions sa (api (page + i)).data)).flatten := by
        rw [List.append_assoc]
        congr 1
        rw [range_succ_shift (fun i => pageSuggestions sa (api (page + i)).data) (k + 1)]
        simp only [Nat.add_zero]
        congr 1
        congr 1
        apply List.map_congr_left
        intro i _
        have harg : page + (i + 1) = page + 1 + i := by omega
        rw [harg]
      dsimp only
      rw [hflat]

/-- Pagination, failure path: if the first `k` pages are full and ok and
page `k + 1` answers a non-success status, `getRepos` aborts after exactly
`k + 1` requests with the typed error (401 = auth, otherwise generic),
discarding every accumulated item. -/
theorem getRepos_err (sa : Bool) (api : Nat → Response) :
    ∀ (k page : Nat) (items : List Suggestion) (fuel : Nat),
      (∀ i, i < k → (api (page + i)).ok = true ∧ (api (page + i)).data.length = RESULTS_PER_PAGE) →
      (api (page + k)).ok = false →
      k + 1 ≤ fuel →
      getRepos sa api fuel page items =
        some (Except.error
          (if (api (page + k)).status = 401 then SyncError.auth else SyncError.generic),
          k + 1) := by
  intro k
  induction k with
  | zero =>
    intro page items fuel hfull hbad hfuel
    match fuel, hfuel with
    | f + 1, _ =>
      simp only [Nat.add_zero] at hbad ⊢
      simp only [getRepos, hbad, Bool.not_false, if_true]
      by_cases hs : (api page).status = 401
      · rw [if_pos hs, if_pos hs]
      · rw [if_neg hs, if_neg hs]
  | succ k ih =>
    intro page items fuel hfull hbad hfuel
    match fuel, hfuel with
    | f + 1, hfuel =>
      have h0 := hfull 0 (Nat.succ_pos k)
      simp only [Nat.add_zero] at h0
      simp only [getRepos, h0.1, Bool.not_true, Bool.false_eq_true, if_false]
      have hcond : ¬((api page).data.length = 0 ∨ (api page).data.length < RESULTS_PER_PAGE) := by
        rw [h0.2]
        simp [RESULTS_PER_PAGE]
      rw [if_neg hcond]
      have hrec := ih (page + 1) (items ++ pageSuggestions sa (api page).data) f
        (fun i hi => by
          have hx := hfull (i + 1) (by omega)
          have harg : page + (i + 1) = page + 1 + i := by omega
          rw [harg] at hx
          exact hx)
        (by
          have harg : page + 1 + k = page + (k + 1) := by omega
          rw [harg]
          exact hbad)
        (by omega)
      rw [hrec]
      have harg : page + 1 + k = page + (k + 1) := by omega
      rw [harg]

/-- A successful fetch makes `syncRepos` replace the cache wholesale and log
exactly one write. -/
theorem syncReposModel_ok (w : World) (sa : Bool) (api : Nat → Response) (fuel n : Nat)
    (repos : List Suggestion) (hw : w.isFetching = false)
    (h : getRepos sa api fuel 1 [] = some (Except.ok repos, n)) :
    syncReposModel w sa api fuel =
      { w with
          isFetching := false
          fetchCount := w.fetchCount + n
          storedRepos := repos
          writeLog := w.writeLog ++ [repos] } := by
  unfold syncReposModel searchModel
  rw [hw, h]
  rfl

/-- A failed fetch makes `syncRepos` swallow the error: no cache write, the
previously stored suggestions survive. -/
theorem syncReposModel_err (w : World) (sa : Bool) (api : Nat → Response) (fuel n : Nat)
    (e : SyncError) (hw : w.isFetching = false)
    (h : getRepos sa api fuel 1 [] = some (Except.error e, n)) :
    syncReposModel w sa api fuel =
      { w with isFetching := false, fetchCount := w.fetchCount + n } := by
  unfold syncReposModel searchModel
  rw [hw, h]
  rfl

/-- Valid scalar values round-trip through `Char.ofNat`. -/
theorem toNat_ofNat_valid (n : Nat) (h : n.isValidChar) : (Char.ofNat n).toNat = n := by
  simp only [Char.ofNat, dif_pos h, Char.ofNatAux, Char.toNat]
  simp [UInt32.toNat]

/-- Only `'/'` itself lowercases to `'/'`. -/
theorem toLower_eq_slash {c : Char} (h : c.toLower = '/') : c = '/' := by
  simp only [Char.toLower] at h
  by_cases hc : c.toNat ≥ 65 ∧ c.toNat ≤ 90
  · rw [if_pos hc] at h
    have h2 : (Char.ofNat (c.toNat + 32)).toNat = ('/' : Char).toNat := by rw [h]
    have hv : (c.toNat + 32).isValidChar := by
      left
      omega
    rw [toNat_ofNat_valid _ hv] at h2
    have h3 : ('/' : Char).toNat = 47 := by decide
    omega
  · rwa [if_neg hc] at h

/-- The text after the final `'/'` contains no `'/'`. -/
theorem lastSegment_no_slash : ∀ s : Str, '/' ∉ lastSegment s := by
  intro s
  induction s with
  | nil => simp [lastSegment]
  | cons c t ih =>
    rw [lastSegment]
    by_cases h : c = '/' ∨ '/' ∈ t
    · rwa [if_pos h]
    · rw [if_neg h]
      push_neg at h
      intro hmem
      rcases List.mem_cons.mp hmem with h1 | h2
      · exact h.1 h1.symm
      · exact h.2 h2

/-- Everything up to and including a `'/'` is ignored by `lastSegment`. -/
theorem lastSegment_after_slash (rest : Str) :
    ∀ owner : Str, lastSegment (owner ++ '/' :: rest) = lastSegment rest := by
  intro owner
  induction owner with
  | nil =>
    rw [List.nil_append, lastSegment, if_pos (Or.inl rfl)]
  | cons c t ih =>
    rw [List.cons_append, lastSegment]
    have hmem : '/' ∈ t ++ '/' :: rest := by
      simp
    rw [if_pos (Or.inr hmem)]
    exact ih

/-- On a slash-free string `lastSegment` is the identity. -/
theorem lastSegment_of_no_slash : ∀ s : Str, '/' ∉ s → lastSegment s = s := by
  intro s h
  cases s with
  | nil => rfl
  | cons c t =>
    rw [lastSegment, if_neg]
    push_neg
    constructor
    · intro hc
      exact h (by simp [hc])
    · intro hmem
      exact h (by simp [hmem])

/-- A slash-free suffix survives `lastSegment`. -/
theorem lastSegment_ends_with (y : Str) (hy : '/' ∉ y) :
    ∀ x : Str, ∃ z : Str, lastSegment (x ++ y) = z ++ y := by
  intro x
  induction x with
  | nil =>
    exact ⟨[], by rw [List.nil_append, lastSegment_of_no_slash y hy]⟩
  | cons c t ih =>
    rw [List.cons_append, lastSegment]
    by_cases h : c = '/' ∨ '/' ∈ t ++ y
    · rw [if_pos h]
      exact ih
    · rw [if_neg h]
      exact ⟨c :: t, rfl⟩

/-- Every character of a case-insensitive prefix occurs (up to case) in the
larger string. -/
theorem isPrefixOfCI_mem : ∀ (n h : Str), isPrefixOfCI n h = true →
    ∀ c ∈ n, ∃ c2 ∈ h, c.toLower = c2.toLower := by
  intro n
  induction n with
  | nil =>
    intro h _ c hc
    exact absurd hc (List.not_mem_nil c)
  | cons a as ih =>
    intro h hp c hc
    cases h with
    | nil => simp [isPrefixOfCI] at hp
    | cons b bs =>
      rw [isPrefixOfCI, Bool.and_eq_true] at hp
      rcases List.mem_cons.mp hc with h1 | h2
      · refine ⟨b, List.mem_cons_self b bs, ?_⟩
        rw [h1]
        have hl := hp.1
        rwa [lowerEq, beq_iff_eq] at hl
      · obtain ⟨c2, hc2, he⟩ := ih bs hp.2 c h2
        exact ⟨c2, List.mem_cons_of_mem b hc2, he⟩

/-- Every character of a case-insensitive substring occurs (up to case) in
the larger string. -/
theorem containsCI_mem : ∀ (h n : Str), containsCI n h = true →
    ∀ c ∈ n, ∃ c2 ∈ h, c.toLower = c2.toLower := by
  intro h
  induction h with
  | nil =>
    intro n hp c hc
    rw [containsCI, List.isEmpty_iff] at hp
    subst hp
    exact absurd hc (List.not_mem_nil c)
  | cons b bs ih =>
    intro n hp c hc
    rw [containsCI, Bool.or_eq_true] at hp
    rcases hp with h1 | h2
    · exact isPrefixOfCI_mem n (b :: bs) h1 c hc
    · obtain ⟨c2, hc2, he⟩ := ih n h2 c hc
      exact ⟨c2, List.mem_cons_of_mem b hc2, he⟩

/-- Case-insensitive prefix comparison is reflexive. -/
theorem isPrefixOfCI_refl : ∀ n : Str, isPrefixOfCI n n = true := by
  intro n
  induction n with
  | nil => rfl
  | cons a as ih =>
    rw [isPrefixOfCI, Bool.and_eq_true]
    exact ⟨by rw [lowerEq, beq_iff_eq], ih⟩

/-- A suffix is always found by the case-insensitive substring test. -/
theorem containsCI_suffix (n : Str) : ∀ z : Str, containsCI n (z ++ n) = true := by
  intro z
  induction z with
  | nil =>
    rw [List.nil_append]
    cases n with
    | nil => rfl
    | cons a as =>
      rw [containsCI, Bool.or_eq_true]
      exact Or.inl (isPrefixOfCI_refl (a :: as))
  | cons c t ih =>
    rw [List.cons_append, containsCI, Bool.or_eq_true]
    exact Or.inr ih

/-! ### Claim theorems -/

/-- C1, as stated, is false: on the query `"a"` against eleven candidates of
which the first ten match by repo name (filling phase 1 to the limit) and
the eleventh matches only through its owner part, the claim's two-phase
description yields the ten phase-1 entries, but `highlightResults` returns
eleven entries — when phase 1 fills the limit exactly, phase 2 still scans
and appends further full-description matches. -/
theorem C1_as_stated_false :
    (highlightResults true litCompile (lit "a") cands11).length = 11 ∧
    (specMatchC1 true litCompile (lit "a") cands11).length = 10 := by
  exact ⟨by decide, by decide⟩

/-- C1 (amended): for every query that compiles and every candidate
sequence, the matcher equals the two-phase description — phase 1 collects,
in original order, every repo-name match up to the limit; if fewer than the
limit were collected, phase 2 appends, in original order, every
full-description match not added in phase 1 until the limit is reached;
if phase 1 filled the limit exactly, phase 2 nevertheless appends every
remaining full-description match (possibly exceeding the limit).  For the
query `"api"` against `acme/api-server -` and `api/widgets -`, the
`api-server` result is ranked first and the `widgets` result second. -/
theorem C1_two_phase_ranking :
    (∀ (isChrome : Bool) (compile : Str → Option CompiledRegex) (text : Str)
        (re : CompiledRegex) (results : List Suggestion), compile text = some re →
      highlightResults isChrome compile text results =
        (specSelectAmended re results).map (displaySuggestion isChrome re))
    ∧ (highlightResults true litCompile (lit "api") [sugApiServer, sugWidgets]).map
        (fun s => s.content) = [lit "u1", lit "u2"] := by
  constructor
  · intro isChrome compile text re results hc
    simp only [highlightResults, hc]
    rw [selectHighlights_spec]
  · decide

/-- Witness for C1: the amended theorem applied to the concrete query
`"api"` and the claim's two candidates under the literal regex engine. -/
theorem C1_two_phase_ranking_witness :
    litCompile (lit "api") = some reApi ∧
    highlightResults true litCompile (lit "api") [sugApiServer, sugWidgets] =
      (specSelectAmended reApi [sugApiServer, sugWidgets]).map (displaySuggestion true reApi) :=
  ⟨rfl, C1_two_phase_ranking.1 true litCompile (lit "api") reApi [sugApiServer, sugWidgets] rfl⟩

set_option maxRecDepth 8000 in
/-- C2: pagination terminates.  Generally: if the first `k` pages are ok and
full (raw length exactly 100) and page `k + 1` is ok and short (raw length
below 100, any other field arbitrary), `getRepos` makes exactly `k + 1`
requests and aggregates the pages in order.  Concretely: pages of raw sizes
`[100, 100, 37]` whose records survive the archived filter yield exactly 3
requests and 237 aggregated suggestions; a successful empty first page
yields exactly 1 request and an empty result. -/
theorem C2_pagination_termination :
    (∀ (api : Nat → Response) (k fuel : Nat),
      (∀ i, i < k → (api (1 + i)).ok = true ∧ (api (1 + i)).data.length = RESULTS_PER_PAGE) →
      (api (1 + k)).ok = true →
      (api (1 + k)).data.length < RESULTS_PER_PAGE →
      k + 1 ≤ fuel →
      getRepos false api fuel 1 [] =
        some (Except.ok (((List.range (k + 1)).map
          (fun i => pageSuggestions false (api (1 + i)).data)).flatten), k + 1))
    ∧ getRepos false api3 5 1 [] = some (Except.ok (List.replicate 237 sug0), 3)
    ∧ getRepos false api0 5 1 [] = some (Except.ok [], 1) := by
  refine ⟨?_, by rfl, by rfl⟩
  intro api k fuel h1 h2 h3 h4
  have h := getRepos_ok false api k 1 [] fuel h1 h2 h3 h4
  simpa using h

/-- Witness for C2: the general conjunct applied to the three-page mocked
API with surplus fuel. -/
theorem C2_pagination_termination_witness :
    getRepos false api3 7 1 [] =
      some (Except.ok (((List.range 3).map
        (fun i => pageSuggestions false (api3 (1 + i)).data)).flatten), 3) :=
  C2_pagination_termination.1 api3 2 7 (by decide) (by decide) (by decide) (by omega)

set_option maxRecDepth 8000 in
/-- C3, evaluated at the failing input: two `syncRepos()` calls with the
second arriving while the first's three-page fetch is in flight.  The
second call's `search()` does resolve `[]` immediately and issues no
request (total requests stay at 3), but its `.then` still runs
`storage.local.set({repos: []})`, so the scenario performs two cache
writes — first the empty list, then the 237 fetched suggestions — where
the claim demands exactly one. -/
theorem C3_single_flight_double_write_eval :
    (twoSyncScenario w0 false api3 5).2 = [] ∧
    (twoSyncScenario w0 false api3 5).1.fetchCount = 3 ∧
    (twoSyncScenario w0 false api3 5).1.writeLog = [[], List.replicate 237 sug0] := by
  exact ⟨rfl, rfl, rfl⟩

/-- C4: a non-success page aborts the fetch at once with a typed failure
(401 is an authentication error, everything else a generic sync error), the
pages accumulated in the same call are discarded (the error carries no
items), and on the failure path `syncRepos` performs no cache write: the
previously persisted suggestions are unchanged. -/
theorem C4_failure_typed_and_cache_untouched :
    (∀ (api : Nat → Response) (k fuel : Nat),
      (∀ i, i < k → (api (1 + i)).ok = true ∧ (api (1 + i)).data.length = RESULTS_PER_PAGE) →
      (api (1 + k)).ok = false →
      k + 1 ≤ fuel →
      getRepos false api fuel 1 [] =
        some (Except.error
          (if (api (1 + k)).status = 401 then SyncError.auth else SyncError.generic), k + 1))
    ∧ (∀ (w : World) (sa : Bool) (api : Nat → Response) (fuel n : Nat) (e : SyncError),
        w.isFetching = false →
        getRepos sa api fuel 1 [] = some (Except.error e, n) →
        (syncReposModel w sa api fuel).storedRepos = w.storedRepos ∧
        (syncReposModel w sa api fuel).writeLog = w.writeLog) := by
  constructor
  · intro api k fuel h1 h2 h3
    have h := getRepos_err false api k 1 [] fuel h1 h2 h3
    simpa using h
  · intro w sa api fuel n e hw h
    rw [syncReposModel_err w sa api fuel n e hw h]
    exact ⟨rfl, rfl⟩

/-- Witness for C4: a 401 first page and a 500 second page, each applied to
the theorem; the pre-populated cache of `w0` survives the failed sync with
no write logged. -/
theorem C4_failure_typed_and_cache_untouched_witness :
    (getRepos false api401 1 1 [] = some (Except.error SyncError.auth, 1)) ∧
    (getRepos false api500 3 1 [] = some (Except.error SyncError.generic, 2)) ∧
    (syncReposModel w0 false api401 1).storedRepos = [oldSug] ∧
    (syncReposModel w0 false api401 1).writeLog = [] := by
  refine ⟨?_, ?_, ?_, ?_⟩
  · have h := C4_failure_typed_and_cache_untouched.1 api401 0 1 (by decide) (by decide) (by omega)
    simpa using h
  · have h := C4_failure_typed_and_cache_untouched.1 api500 1 3 (by decide) (by decide) (by omega)
    simpa using h
  · exact (C4_failure_typed_and_cache_untouched.2 w0 false api401 1 1 SyncError.auth rfl
      (by rfl)).1
  · exact (C4_failure_typed_and_cache_untouched.2 w0 false api401 1 1 SyncError.auth rfl
      (by rfl)).2

/-- C5: on a successful sync with the archived filter on
(`showArchivedRepos = false`), every record with `archived = true` is
dropped, each remaining record is mapped through `formatAsSuggestion`, and
the cache is replaced wholesale with the result (one write, equal to the
new value).  Concretely, records `a` (kept) and `b` (archived) leave only
the suggestion for `a` in the cache. -/
theorem C5_archived_filter_cache_replace :
    (∀ (w : World) (api : Nat → Response) (k fuel : Nat),
      w.isFetching = false →
      (∀ i, i < k → (api (1 + i)).ok = true ∧ (api (1 + i)).data.length = RESULTS_PER_PAGE) →
      (api (1 + k)).ok = true →
      (api (1 + k)).data.length < RESULTS_PER_PAGE →
      k + 1 ≤ fuel →
      syncReposModel w false api fuel =
        { w with
            isFetching := false
            fetchCount := w.fetchCount + (k + 1)
            storedRepos := ((List.range (k + 1)).map (fun i =>
              ((api (1 + i)).data.filter (fun r => !r.archived)).map formatAsSuggestion)).flatten
            writeLog := w.writeLog ++ [((List.range (k + 1)).map (fun i =>
              ((api (1 + i)).data.filter (fun r => !r.archived)).map
                formatAsSuggestion)).flatten] })
    ∧ (syncReposModel w0 false apiAB 5).storedRepos = [formatAsSuggestion recA]
    ∧ formatAsSuggestion recA = { content := lit "ua", description := lit "a -" } := by
  refine ⟨?_, by rfl, by rfl⟩
  intro w api k fuel hw h1 h2 h3 h4
  have h := getRepos_ok false api k 1 [] fuel h1 h2 h3 h4
  simp only [List.nil_append] at h
  exact syncReposModel_ok w false api fuel (k + 1) _ hw h

/-- Witness for C5: the theorem applied to the single-page
`[recA, recB]` API starting from the idle world `w0`. -/
theorem C5_archived_filter_cache_replace_witness :
    syncReposModel w0 false apiAB 5 =
      { w0 with
          isFetching := false
          fetchCount := w0.fetchCount + 1
          storedRepos := ((List.range 1).map (fun i =>
            ((apiAB (1 + i)).data.filter (fun r => !r.archived)).map formatAsSuggestion)).flatten
          writeLog := w0.writeLog ++ [((List.range 1).map (fun i =>
            ((apiAB (1 + i)).data.filter (fun r => !r.archived)).map
              formatAsSuggestion)).flatten] } :=
  C5_archived_filter_cache_replace.1 w0 apiAB 0 5 rfl (by decide) (by decide) (by decide)
    (by omega)

/-- C6, evaluated at the failing input: for the query `"a"` against the
eleven candidates of `cands11`, the matcher returns 11 entries although
`MAX_SUGGESTIONS` is 10 — the phase-2 break compares with equality after a
push, so once phase 1 has filled the limit the check can never fire
again. -/
theorem C6_limit_exceeded_eval :
    (highlightResults true litCompile (lit "a") cands11).length = 11 ∧
    MAX_SUGGESTIONS = 10 := by
  exact ⟨by decide, rfl⟩

/-- C7: a query the engine rejects as a pattern makes `highlightResults`
return the empty list (the `try`/`catch` around `new RegExp` swallows the
failure) for every candidate sequence and either platform. -/
theorem C7_malformed_query_yields_empty (isChrome : Bool)
    (compile : Str → Option CompiledRegex) (text : Str) (results : List Suggestion)
    (h : compile text = none) :
    highlightResults isChrome compile text results = [] := by
  unfold highlightResults
  rw [h]

/-- Witness for C7: the unbalanced grouping character `"("` fails to
compile and yields the empty result. -/
theorem C7_malformed_query_yields_empty_witness :
    litCompile (lit "(") = none ∧
    highlightResults true litCompile (lit "(") [sugXA] = [] :=
  ⟨rfl, C7_malformed_query_yields_empty true litCompile (lit "(") [sugXA] rfl⟩

/-- C8, as stated, is false: with an empty in-memory cache, stored repos
that do match the entered text, and a non-URL input, the handler navigates
nowhere (`none`), although the claim's description (re-run the match
against the read-through cache, navigate to the top result) yields the top
result's URL — the `browser.storage.local.get` callback that would set
`url` runs only after the `if (url)` check. -/
theorem C8_as_stated_false :
    onInputEnteredHandler litParseURL true litCompile (lit "a") [] [sugXA] = none ∧
    onInputEnteredSpec litParseURL true litCompile (lit "a") [] [sugXA] = some (lit "u") :=
  ⟨rfl, rfl⟩

/-- C8 (amended): on selection confirmed, text parsing as an absolute URL
is navigated to directly; otherwise, when the in-memory cache is
non-empty, the match is re-run against it and the top result's URL (its
unchanged `content`) is navigated to if at least one result exists;
otherwise — in particular whenever the in-memory cache is empty, the
storage read resolving too late — nothing happens. -/
theorem C8_selection_navigation : ∀ (parseURL : Str → Option Str) (isChrome : Bool)
    (compile : Str → Option CompiledRegex) (input : Str) (mem stored : List Suggestion),
    (∀ u, parseURL input = some u →
      onInputEnteredHandler parseURL isChrome compile input mem stored = some u)
    ∧ (parseURL input = none → mem ≠ [] →
      onInputEnteredHandler parseURL isChrome compile input mem stored =
        (highlightResults isChrome compile input mem).head?.map (fun s => s.content))
    ∧ (parseURL input = none → mem = [] →
      onInputEnteredHandler parseURL isChrome compile input mem stored = none) := by
  intro parseURL isChrome compile input mem stored
  refine ⟨?_, ?_, ?_⟩
  · intro u hu
    unfold onInputEnteredHandler
    rw [hu]
  · intro hp hmem
    unfold onInputEnteredHandler
    rw [hp]
    have hlen : mem.length ≠ 0 := by
      cases mem with
      | nil => exact absurd rfl hmem
      | cons a t => simp
    rw [if_pos hlen]
    cases highlightResults isChrome compile input mem with
    | nil => rfl
    | cons s t => rfl
  · intro hp hmem
    unfold onInputEnteredHandler
    rw [hp, hmem]
    rfl

/-- Witness for C8: an absolute URL is navigated to unchanged, and a warm
in-memory cache navigates to the top match's content. -/
theorem C8_selection_navigation_witness :
    onInputEnteredHandler litParseURL true litCompile (lit "https://e/") [] [] =
      some (lit "https://e/")
    ∧ onInputEnteredHandler litParseURL true litCompile (lit "a") [sugXA] [] =
      (highlightResults true litCompile (lit "a") [sugXA]).head?.map (fun s => s.content) :=
  ⟨(C8_selection_navigation litParseURL true litCompile (lit "https://e/") [] []).1 _ rfl,
   (C8_selection_navigation litParseURL true litCompile (lit "a") [sugXA] []).2.1 rfl
     (by decide)⟩

/-- C9, as stated, is false: for the query `"api"` and the description
`api/api -`, the returned display text wraps only the first occurrence —
`replace` on a regex without the `g` flag — and differs from the text in
which every matched substring is wrapped. -/
theorem C9_as_stated_false :
    (highlightResults true litCompile (lit "api")
      [{ content := lit "u", description := lit "api/api -" }]).map (fun s => s.description) ≠
    [lit "<dim>" ++ replaceAllLit (lit "api") (lit "api/api -") ++ lit "</dim> <url>u</url>"] := by
  decide

/-- C9 (amended): for every matched candidate, on the Chrome variant the
first matched substring of its description is wrapped in `<match>` markers
inside the `<dim>…</dim> <url>…</url>` display field, on the Firefox
variant the description stays plain, and in both cases the returned
`content` equals the candidate's raw URL unchanged; the suggestions a sync
writes to the cache are `formatAsSuggestion` images carrying the plain
``full_name ++ " -"`` description with no markup. -/
theorem C9_highlight_display_only :
    (∀ (compile : Str → Option CompiledRegex) (text : Str) (re : CompiledRegex)
        (results : List Suggestion), compile text = some re →
      (highlightResults true compile text results).map (fun s => s.content) =
          (selectHighlights re results).map (fun s => s.content)
      ∧ highlightResults true compile text results =
          (selectHighlights re results).map (fun res =>
            { content := res.content
              description := lit "<dim>" ++ re.replaceFirst res.description ++
                lit "</dim> <url>" ++ res.content ++ lit "</url>" })
      ∧ highlightResults false compile text results = selectHighlights re results)
    ∧ (∀ r : RepoRecord, (formatAsSuggestion r).description = r.full_name ++ lit " -" ∧
        (formatAsSuggestion r).content = r.html_url)
    ∧ (∀ (sa : Bool) (data : List RepoRecord) (s : Suggestion),
        s ∈ pageSuggestions sa data → ∃ r ∈ data, s = formatAsSuggestion r)
    ∧ (highlightResults true litCompile (lit "api")
        [{ content := lit "u", description := lit "api/api -" }]).map (fun s => s.description) =
        [lit "<dim><match>api</match>/api -</dim> <url>u</url>"] := by
  refine ⟨?_, fun r => ⟨rfl, rfl⟩, ?_, by decide⟩
  · intro compile text re results hc
    refine ⟨?_, ?_, ?_⟩
    · simp only [highlightResults, hc]
      simp [List.map_map, Function.comp, displaySuggestion]
    · simp only [highlightResults, hc]
      rfl
    · simp only [highlightResults, hc]
      have hid : displaySuggestion false re = fun res => res := by
        funext res
        rfl
      rw [hid, List.map_id']
  · intro sa data s hs
    unfold pageSuggestions at hs
    rw [List.mem_map] at hs
    obtain ⟨r, hr, hrs⟩ := hs
    refine ⟨r, ?_, hrs.symm⟩
    by_cases h : sa
    · simp [h] at hr
      exact hr
    · simp [h] at hr
      exact hr.1

/-- Witness for C9: the amended theorem applied to the query `"api"` and a
single candidate under the literal engine, on both platform variants. -/
theorem C9_highlight_display_only_witness :
    highlightResults true litCompile (lit "api") [sugApiServer] =
      (selectHighlights reApi [sugApiServer]).map (fun res =>
        { content := res.content
          description := lit "<dim>" ++ reApi.replaceFirst res.description ++
            lit "</dim> <url>" ++ res.content ++ lit "</url>" }) ∧
    highlightResults false litCompile (lit "api") [sugApiServer] =
      selectHighlights reApi [sugApiServer] :=
  ⟨(C9_highlight_display_only.1 litCompile (lit "api") reApi [sugApiServer] rfl).2.1,
   (C9_highlight_display_only.1 litCompile (lit "api") reApi [sugApiServer] rfl).2.2⟩

/-- C10: the text phase 1 tests is exactly `lastSegment description`; for a
description of the shape ``owner/repo ++ " -"`` (no `'/'` in the repo
name) that segment is ``repo ++ " -"``, including the trailing `" -"`;
a literal query containing `'/'` can never match in phase 1 (the segment
is slash-free); and the query `" -"` matches every description ending in
`" -"` in phase 1. -/
theorem C10_repo_segment_matching :
    (∀ (d : Str) (re : CompiledRegex), isMatch d re true = re.test (lastSegment d))
    ∧ (∀ (owner repo : Str), '/' ∉ repo →
        lastSegment (owner ++ '/' :: (repo ++ lit " -")) = repo ++ lit " -")
    ∧ (∀ (q : Str) (re : CompiledRegex) (d : Str), '/' ∈ q → litCompile q = some re →
        isMatch d re true = false)
    ∧ (∀ (re : CompiledRegex) (d : Str), litCompile (lit " -") = some re →
        isMatch (d ++ lit " -") re true = true) := by
  refine ⟨fun d re => rfl, ?_, ?_, ?_⟩
  · intro owner repo hrepo
    rw [lastSegment_after_slash]
    apply lastSegment_of_no_slash
    intro hmem
    rcases List.mem_append.mp hmem with h1 | h2
    · exact hrepo h1
    · have hns : '/' ∉ lit " -" := by decide
      exact hns h2
  · intro q re d hq hc
    unfold litCompile at hc
    by_cases hmeta : q.any (fun c => regexMetaChars.contains c)
    · rw [if_pos hmeta] at hc
      exact absurd hc (by simp)
    · rw [if_neg hmeta] at hc
      have hre : re = { test := containsCI q, replaceFirst := replaceFirstLit q } := by
        injection hc with h1
        exact h1.symm
      subst hre
      show containsCI q (lastSegment d) = false
      by_contra hne
      rw [Bool.not_eq_false] at hne
      obtain ⟨c2, hc2, he⟩ := containsCI_mem (lastSegment d) q hne '/' hq
      have hsl : ('/' : Char).toLower = '/' := by decide
      have hc2l : c2.toLower = '/' := by rw [← he, hsl]
      have hc2e : c2 = '/' := toLower_eq_slash hc2l
      subst hc2e
      exact lastSegment_no_slash d hc2
  · intro re d hc
    unfold litCompile at hc
    rw [if_neg (by decide)] at hc
    have hre : re = { test := containsCI (lit " -"), replaceFirst := replaceFirstLit (lit " -") } := by
      injection hc with h1
      exact h1.symm
    subst hre
    show containsCI (lit " -") (lastSegment (d ++ lit " -")) = true
    obtain ⟨z, hz⟩ := lastSegment_ends_with (lit " -") (by decide) d
    rw [hz]
    exact containsCI_suffix (lit " -") z

/-- Witness for C10: the segment of `owner/repo -`, a slashed query that
cannot match in phase 1, and the `" -"` query matching in phase 1. -/
theorem C10_repo_segment_matching_witness :
    lastSegment (lit "owner" ++ '/' :: (lit "repo" ++ lit " -")) = lit "repo" ++ lit " -"
    ∧ isMatch (lit "x/y -") reSlash true = false
    ∧ isMatch (lit "owner/repo" ++ lit " -") reDash true = true :=
  ⟨C10_repo_segment_matching.2.1 (lit "owner") (lit "repo") (by decide),
   C10_repo_segment_matching.2.2.1 (lit "a/b") reSlash (lit "x/y -") (by decide) rfl,
   C10_repo_segment_matching.2.2.2 reDash (lit "owner/repo") rfl⟩

end GithubRepoSearch
